import Mathlib

/-!
# Verification of the Docker Desktop direct-download-link tracker

A shallow embedding of the two Python source files (`docker_guids.py` and
`docker_release_scraper.py`) of the repository.  Python's insertion-ordered
`dict` is modelled as an association list together with the operations the
sources use (key test, lookup, item assignment, `dict(pairs)` construction
and `{**a, **b}` merging).  The HTML page is modelled as the sequence of
sibling tags of the release-notes body; network calls and the filesystem are
lifted to explicit parameters, and an effect trace records the GET/HEAD
requests and file writes the orchestrator performs.
-/

namespace Docker

/-! ## Python ordered dictionaries as association lists -/

/-- A Python `dict` with `String` keys: an insertion-ordered association
list.  A well-formed dict has pairwise-distinct keys (`DictWF`). -/
abbrev Dict (β : Type) := List (String × β)

/-- Membership, `k in d` on a Python dict. -/
def dictMem {β : Type} (k : String) (d : Dict β) : Bool :=
  d.any (fun p => p.1 == k)

/-- Lookup, `d[k]` on a Python dict, `none` for a `KeyError`. -/
def dictLookup {β : Type} (k : String) (d : Dict β) : Option β :=
  (d.find? (fun p => p.1 == k)).map Prod.snd

/-- Assignment, `d[k] = v` on a Python dict: an existing key keeps its position and gets
the new value, a fresh key is appended at the end. -/
def dictInsert {β : Type} (d : Dict β) (k : String) (v : β) : Dict β :=
  if dictMem k d then d.map (fun p => if p.1 == k then (k, v) else p)
  else d ++ [(k, v)]

/-- Construction, `dict(pairs)`: insert the pairs left to right (a later pair with the same
key keeps the earlier position but supplies the value). -/
def dictOfPairs {β : Type} (ps : List (String × β)) : Dict β :=
  ps.foldl (fun d p => dictInsert d p.1 p.2) []

/-- Merging, `{**a, **b}`: a fresh dict filled with `a`'s items and then `b`'s. -/
def dictMerge {β : Type} (a b : Dict β) : Dict β :=
  dictOfPairs (a ++ b)

/-- The invariant every real Python dict satisfies: keys are distinct. -/
def DictWF {β : Type} (d : Dict β) : Prop :=
  (d.map Prod.fst).Nodup

instance {β : Type} (d : Dict β) : Decidable (DictWF d) := by
  unfold DictWF; infer_instance

/-! ## The HTML model and the GUID extractor

`docker_guids.py` walks the parsed release-notes page: `find_all("h2")`
yields the release headings, and `find_next_sibling()` (twice) reaches the
release-date element and the optional direct-download blockquote.  On that
page all these tags are siblings in one container, so the document is
modelled as the ordered list of those sibling tags.  An anchor is modelled
by its `href` target (the source crashes on an anchor with no `href`, a
shape the page never produces and which this model leaves out). -/

/-- One HTML tag of the release-notes body: its tag name, its `.text`
content, and the `href` targets of the anchors inside it, in document
order. -/
structure Elem where
  name : String
  text : String
  anchors : List String
deriving DecidableEq, Repr

/-- A `(version, guid/release_date)` value of the GUID store. -/
structure Entry where
  guid : Nat
  release_date : String
deriving DecidableEq, Repr

/-! ### The GUID pattern

`GUID_REGEX` in the sources:

  `(?:https:\/\/desktop\.docker\.com\/(?:\w*?\/){3})(\d+)`

The literal prefix, then three non-greedy word-character runs each closed by
a slash, then a captured digit run.  Because `\w` never matches `/`, each
`\w*?/` deterministically consumes the maximal word-character run and then
requires a `/`; backtracking can never lengthen it, so `re.search` reduces
to trying each start offset left to right with this deterministic matcher.
Python's `\w` is Unicode-aware; hrefs on this page are ASCII, which is what
`Char.isAlphanum` covers. -/

/-- Word characters, `\w` on the ASCII range. -/
def isWordChar (c : Char) : Bool :=
  c.isAlphanum || c == '_'

/-- One `\w*?/` segment: consume the word-character run, then require `/`. -/
def matchSegment (cs : List Char) : Option (List Char) :=
  match cs.dropWhile isWordChar with
  | '/' :: rest => some rest
  | _ => none

/-- Repeated segments, `(?:\w*?\/){n}`. -/
def matchSegments : Nat → List Char → Option (List Char)
  | 0, cs => some cs
  | n + 1, cs => (matchSegment cs).bind (matchSegments n)

/-- Match a literal character sequence, returning what follows it. -/
def matchLiteral : List Char → List Char → Option (List Char)
  | [], cs => some cs
  | l :: ls, c :: cs => if c == l then matchLiteral ls cs else none
  | _ :: _, [] => none

def guidLiteral : List Char := "https://desktop.docker.com/".toList

/-- Parsing, `int` on a digit run. -/
def digitsToNat (ds : List Char) : Nat :=
  ds.foldl (fun n c => 10 * n + (c.toNat - 48)) 0

/-- The whole pattern anchored at the current offset; the captured group
parsed as an integer. -/
def matchGuidAt (cs : List Char) : Option Nat := do
  let r1 ← matchLiteral guidLiteral cs
  let r2 ← matchSegments 3 r1
  let ds := r2.takeWhile Char.isDigit
  if ds.isEmpty then none else some (digitsToNat ds)

/-- Search, `re.search(GUID_REGEX, link)` followed by `int(match.group(1))`: try each
start offset left to right. -/
def searchGuid : List Char → Option Nat
  | [] => none
  | c :: cs =>
    match matchGuidAt (c :: cs) with
    | some g => some g
    | none => searchGuid cs

/-- The loop `extract_version_guid` (`docker_release_scraper.py`, also inlined in
`docker_guids.py`): the first anchor whose target matches yields the parsed
capture; scanning stops there. -/
def extract_version_guid : List String → Option Nat
  | [] => none
  | a :: rest =>
    match searchGuid a.toList with
    | some g => some g
    | none => extract_version_guid rest

/-- Python `str.strip()`: drop the whitespace run at both ends.  (Python
strips Unicode whitespace; `Char.isWhitespace` covers the ASCII range this
page uses.) -/
def pyStrip (s : String) : String :=
  ((s.toList.dropWhile Char.isWhitespace).reverse.dropWhile
    Char.isWhitespace).reverse.asString

/-- The body of the extraction loop for one heading: `title`, its next
sibling (release date) and the sibling after that.  `None` when the section
is skipped: no blockquote, no matching anchor, or a falsy (`0`) guid — the
sources test the extracted value with `if guid:`. -/
def processSection (title sib1 sib2 : Elem) : Option (String × Entry) :=
  let version := pyStrip title.text
  let release_date := pyStrip sib1.text
  if sib2.name != "blockquote" then none
  else
    match extract_version_guid sib2.anchors with
    | some guid => if guid == 0 then none else some (version, ⟨guid, release_date⟩)
    | none => none

/-- The `for title in content.find_all("h2")` loop: emitted pairs in page
order.  `None` models the `AttributeError` the sources raise when a heading
has fewer than two following siblings (the release date is read from the
first sibling, and `.name` from the second, before any skipping). -/
def scanH2 : List Elem → Option (List (String × Entry))
  | [] => some []
  | e :: rest =>
    if e.name == "h2" then
      match rest with
      | [] => none
      | s1 :: rest2 =>
        match rest2 with
        | [] => none
        | s2 :: _ =>
          (scanH2 rest).map (fun tail =>
            match processSection e s1 s2 with
            | some pair => pair :: tail
            | none => tail)
    else scanH2 rest

/-- The extractor `get_available_guids` (`fetch_available_guids` in the scraper variant):
collect the pairs in page order, then `dict(reversed(guids))`. -/
def get_available_guids (doc : List Elem) : Option (Dict Entry) :=
  (scanH2 doc).map (fun guids => dictOfPairs guids.reverse)

/-! ## The GUID database updater

`update_guids_database` / `update_guid_database`: fetching and the YAML
files are lifted to parameters, and the `Bool` records whether
`save_yaml("utils/guids.yaml", ...)` runs. -/

/-- The merge at the heart of `update_guids_database`: `guids` is the
freshly extracted mapping, `existing_guids` the persisted store. -/
def update_guids_database (guids existing_guids : Dict Entry) : Dict Entry × Bool :=
  let new_guids := guids.filter (fun p => !(dictMem p.1 existing_guids))
  if new_guids.isEmpty then (existing_guids, false)
  else (dictMerge existing_guids new_guids, true)

/-! ## Python `str.format` with the single keyword `guid`

`url.format(guid=...)`: `\x7b\x7b` and `\x7d\x7d` unescape to one brace, a
simple replacement field `\x7bguid\x7d` substitutes the decimal identifier,
any other field name raises `KeyError`, and a lone brace raises
`ValueError`.  (Conversion and format-spec suffixes of the format
mini-language are not modelled; the template store holds plain fields
only.) -/

/-- The format scanner.  The first argument is the mode: `none` outside a
replacement field, `some acc` inside one with the field name read so far in
reverse.  A field whose name is `guid` substitutes `str(g)`; any other name
raises (`KeyError`, as Python does for an unknown keyword — the positional
`IndexError` of an empty field is folded into it). -/
def formatGo (g : Nat) : Option (List Char) → List Char → Except String (List Char)
  | some _, [] => .error "ValueError: expected closing brace before end of string"
  | some acc, c :: rest =>
    if c == '}' then
      if acc.reverse == "guid".toList then
        (formatGo g none rest).map (fun t => (Nat.repr g).toList ++ t)
      else .error "KeyError"
    else formatGo g (some (c :: acc)) rest
  | none, [] => .ok []
  | none, c :: rest =>
    if c == '{' then
      match rest with
      | [] => .error "ValueError: Single brace encountered in format string"
      | c2 :: rest2 =>
        if c2 == '{' then (formatGo g none rest2).map (fun t => '{' :: t)
        else if c2 == '}' then .error "KeyError"
        else formatGo g (some [c2]) rest2
    else if c == '}' then
      match rest with
      | [] => .error "ValueError: Single brace encountered in format string"
      | c2 :: rest2 =>
        if c2 == '}' then (formatGo g none rest2).map (fun t => '}' :: t)
        else .error "ValueError: Single brace encountered in format string"
    else (formatGo g none rest).map (fun t => c :: t)

/-- Formatting, `template.format(guid=g)`. -/
def pyFormat (template : String) (g : Nat) : Except String String :=
  (formatGo g none template.toList).map List.asString

/-! ## The URL generator

`generate_urls` (`docker_guids.py`): the two YAML loads are lifted to the
`url_templates` and `existing_resources` parameters; the `Bool` records
whether `save_yaml("utils/resources.yaml", ...)` runs.  A format error
propagates as `Except.error`. -/

/-- The resource map built for one new version: the template dict
comprehension, then `new_resources[version]["release_date"] = ...`. -/
def buildResource (url_templates : Dict String) (data : Entry) :
    Except String (Dict String) := do
  let pairs ← url_templates.mapM (fun p => do
    let s ← pyFormat p.2 data.guid
    pure (p.1, "https://desktop.docker.com" ++ s))
  pure (dictInsert (dictOfPairs pairs) "release_date" data.release_date)

/-- The `for version, data in guids.items()` loop accumulating
`new_resources`. -/
def genGo (url_templates : Dict String) (existing_resources : Dict (Dict String)) :
    List (String × Entry) → Dict (Dict String) → Except String (Dict (Dict String))
  | [], acc => .ok acc
  | (version, data) :: rest, acc =>
    if dictMem version existing_resources then
      genGo url_templates existing_resources rest acc
    else do
      let rmap ← buildResource url_templates data
      genGo url_templates existing_resources rest (dictInsert acc version rmap)

def generate_urls (guids : Dict Entry) (url_templates : Dict String)
    (existing_resources : Dict (Dict String)) :
    Except String (Dict (Dict String) × Bool) := do
  let new_resources ← genGo url_templates existing_resources guids []
  if new_resources.isEmpty then pure (existing_resources, false)
  else pure (dictMerge existing_resources new_resources, true)

/-! ## The URL verifier

`verify_urls` (`docker_guids.py`): `requests.head(url,
allow_redirects=True).status_code` becomes the `probe` parameter — `some
status` is the final status code after redirects, `none` a transport-level
exception.  The whole pass returns `none` when any probe (or the
`data["release_date"]` lookup) raises, because nothing in the source
catches it. -/

/-- The `valid_urls` dict comprehension for one version: items in order,
`release_date` excluded before probing, kept iff the final status is 200. -/
def probeItems (probe : String → Option Nat) :
    List (String × String) → Option (List (String × String))
  | [] => some []
  | (type_, url) :: rest =>
    if type_ == "release_date" then probeItems probe rest
    else do
      let status ← probe url
      let tail ← probeItems probe rest
      if status == 200 then pure ((type_, url) :: tail) else pure tail

/-- The `for version, data in resources.items()` loop accumulating
`verified_resources`. -/
def verifyGo (probe : String → Option Nat) :
    List (String × Dict String) → Dict (Dict String) → Option (Dict (Dict String))
  | [], acc => some acc
  | (version, data) :: rest, acc => do
    let valid_urls ← probeItems probe data
    if valid_urls.isEmpty then verifyGo probe rest acc
    else do
      let rd ← dictLookup "release_date" data
      verifyGo probe rest (dictInsert acc version (dictInsert valid_urls "release_date" rd))

/-- The verified mapping `verify_urls` computes and then writes to
`DockerDesktop.yaml`. -/
def verify_urls (probe : String → Option Nat) (resources : Dict (Dict String)) :
    Option (Dict (Dict String)) :=
  verifyGo probe resources []

/-- The condition under which the comprehension keeps an item: not the
`release_date` field, and the probe's final status is exactly 200. -/
def probeSuccess (probe : String → Option Nat) (p : String × String) : Bool :=
  p.1 != "release_date" && (probe p.2 == some 200)

/-! ## The orchestrator

`main` of `docker_guids.py`.  The filesystem is a `World` of parsed YAML
stores (`none` = missing file, mirroring `load_yaml`'s empty-dict default),
the live page and the probe outcomes are parameters, and the result pairs
the final filesystem with the trace of effects (network requests and file
writes) in program order; `none` is an uncaught exception aborting the
run. -/

inductive Effect where
  | httpGet : Effect
  | httpHead : String → Effect
  | writeFile : String → Effect
deriving DecidableEq, Repr

structure World where
  guidsFile : Option (Dict Entry)
  urlsFile : Option (Dict String)
  resourcesFile : Option (Dict (Dict String))
  outputFile : Option (Dict (Dict String))
deriving DecidableEq, Repr

/-- Loading, `load_yaml`: a missing file is an empty mapping. -/
def load_yaml {β : Type} (file : Option (Dict β)) : Dict β :=
  file.getD []

/-- The HEAD requests a successful verification pass issues, in program
order: every non-`release_date` URL value of every version. -/
def headTrace (resources : Dict (Dict String)) : List Effect :=
  resources.flatMap
    (fun p => (p.2.filter (fun q => q.1 != "release_date")).map
      (fun q => Effect.httpHead q.2))

/-- The tail of `main` after the GUID store is settled: the `--generate`
and `--verify` phases. -/
def mainRest (probe : String → Option Nat) (gen ver : Bool) (guids : Dict Entry)
    (w : World) (eff : List Effect) : Option (World × List Effect) :=
  let genStep : Option (Dict (Dict String) × World × List Effect) :=
    if gen then
      match generate_urls guids (load_yaml w.urlsFile) (load_yaml w.resourcesFile) with
      | .error _ => none
      | .ok (res, changed) =>
        some (res,
          (if changed then { w with resourcesFile := some res } else w),
          eff ++ (if changed then [Effect.writeFile "utils/resources.yaml"] else []))
    else some ([], w, eff)
  match genStep with
  | none => none
  | some (resources, w2, eff2) =>
    if ver then
      let resources2 := if resources.isEmpty then load_yaml w2.resourcesFile else resources
      match verify_urls probe resources2 with
      | none => none
      | some out =>
        some ({ w2 with outputFile := some out },
          eff2 ++ headTrace resources2 ++ [Effect.writeFile "DockerDesktop.yaml"])
    else some (w2, eff2)

/-- The orchestrator `main(update=..., generate=..., verify=...)` of `docker_guids.py`:
load the GUID store; refresh it when `--update` (one GET, a write iff new
entries appeared); return early when the store is empty and `--update` is
off; then run the remaining phases. -/
def main (page : List Elem) (probe : String → Option Nat)
    ( update gen ver : Bool) (w : World) : Option (World × List Effect) :=
  let guids0 := load_yaml w.guidsFile
  if update then
    match get_available_guids page with
    | none => none
    | some fresh =>
      let r := update_guids_database fresh guids0
      mainRest probe gen ver r.1
        (if r.2 then { w with guidsFile := some r.1 } else w)
        (Effect.httpGet :: (if r.2 then [Effect.writeFile "utils/guids.yaml"] else []))
  else if guids0.isEmpty then some (w, [])
  else mainRest probe gen ver guids0 w []

/-! ## Reduction lemmas for the `Except` monad -/

@[simp]
theorem except_bind_ok {ε α β : Type} (a : α) (f : α → Except ε β) :
    (Except.ok a : Except ε α) >>= f = f a := rfl

@[simp]
theorem except_bind_error {ε α β : Type} (e : ε) (f : α → Except ε β) :
    (Except.error e : Except ε α) >>= f = (Except.error e : Except ε β) := rfl

@[simp]
theorem except_pure_eq {ε α : Type} (a : α) :
    (pure a : Except ε α) = Except.ok a := rfl

@[simp]
theorem except_map_ok {ε α β : Type} (f : α → β) (a : α) :
    (Except.ok a : Except ε α).map f = Except.ok (f a) := rfl

@[simp]
theorem except_map_error {ε α β : Type} (f : α → β) (e : ε) :
    (Except.error e : Except ε α).map f = (Except.error e : Except ε β) := rfl

@[simp]
theorem option_bind_some' {α β : Type} (a : α) (f : α → Option β) :
    (some a : Option α) >>= f = f a := rfl

@[simp]
theorem option_bind_none' {α β : Type} (f : α → Option β) :
    (none : Option α) >>= f = (none : Option β) := rfl

@[simp]
theorem option_pure_eq {α : Type} (a : α) : (pure a : Option α) = some a := rfl

/-! ## Lemmas about the dictionary model -/

theorem dictMem_iff {β : Type} {k : String} {d : Dict β} :
    dictMem k d = true ↔ k ∈ d.map Prod.fst := by
  simp only [dictMem, List.any_eq_true, List.mem_map, beq_iff_eq]

theorem dictMem_eq_false_iff {β : Type} {k : String} {d : Dict β} :
    dictMem k d = false ↔ k ∉ d.map Prod.fst := by
  rw [← Bool.not_eq_true, not_iff_not]; exact dictMem_iff

theorem dictMem_append {β : Type} (k : String) (a b : Dict β) :
    dictMem k (a ++ b) = (dictMem k a || dictMem k b) := by
  simp [dictMem, List.any_append]

theorem dictInsert_of_absent {β : Type} {d : Dict β} {k : String} (v : β)
    (h : dictMem k d = false) : dictInsert d k v = d ++ [(k, v)] := by
  simp [dictInsert, h]

theorem foldl_dictInsert_of_disjoint {β : Type} :
    ∀ (ps : List (String × β)) (d : Dict β),
      (ps.map Prod.fst).Nodup → (∀ p ∈ ps, dictMem p.1 d = false) →
      ps.foldl (fun d p => dictInsert d p.1 p.2) d = d ++ ps
  | [], d, _, _ => by simp
  | p :: rest, d, hnd, hdisj => by
    have hnd2 : p.1 ∉ rest.map Prod.fst ∧ (rest.map Prod.fst).Nodup := by
      rw [List.map_cons, List.nodup_cons] at hnd; exact hnd
    have hp : dictMem p.1 d = false := hdisj p (List.mem_cons_self _ _)
    have hstep : dictInsert d p.1 p.2 = d ++ [p] := by
      rw [dictInsert_of_absent _ hp]
    have hdisj' : ∀ q ∈ rest, dictMem q.1 (d ++ [p]) = false := by
      intro q hq
      rw [dictMem_append]
      have h1 : dictMem q.1 d = false := hdisj q (List.mem_cons_of_mem _ hq)
      have h2 : dictMem q.1 [p] = false := by
        have hne : ¬ (p.1 == q.1) = true := by
          intro he
          exact hnd2.1 ((eq_of_beq he) ▸ (List.mem_map.mpr ⟨q, hq, rfl⟩))
        simp [dictMem, hne]
      simp [h1, h2]
    have htail := foldl_dictInsert_of_disjoint rest (d ++ [p]) hnd2.2 hdisj'
    calc (p :: rest).foldl (fun d p => dictInsert d p.1 p.2) d
        = rest.foldl (fun d p => dictInsert d p.1 p.2) (d ++ [p]) := by
          simp [List.foldl_cons, hstep]
      _ = (d ++ [p]) ++ rest := htail
      _ = d ++ p :: rest := by simp

theorem dictOfPairs_of_nodup {β : Type} {ps : List (String × β)}
    (h : (ps.map Prod.fst).Nodup) : dictOfPairs ps = ps := by
  have := foldl_dictInsert_of_disjoint ps [] h (by intro p _; rfl)
  simpa [dictOfPairs] using this

theorem dictMerge_eq_append {β : Type} {a b : Dict β}
    (ha : DictWF a) (hb : (b.map Prod.fst).Nodup)
    (hdisj : ∀ p ∈ b, dictMem p.1 a = false) : dictMerge a b = a ++ b := by
  unfold dictMerge dictOfPairs
  rw [List.foldl_append]
  have h1 : a.foldl (fun d p => dictInsert d p.1 p.2) [] = a := by
    have := foldl_dictInsert_of_disjoint a [] ha (by intro p _; rfl)
    simpa using this
  rw [h1]
  exact foldl_dictInsert_of_disjoint b a hb hdisj

theorem keys_dictInsert {β : Type} (d : Dict β) (k : String) (v : β) :
    (dictInsert d k v).map Prod.fst =
      if dictMem k d then d.map Prod.fst else d.map Prod.fst ++ [k] := by
  unfold dictInsert
  by_cases h : dictMem k d
  · simp only [h, if_true, List.map_map]
    apply List.map_congr_left
    intro p _
    by_cases hp : (p.1 == k) = true
    · simp only [Function.comp_apply, hp, if_true]
      exact (eq_of_beq hp).symm
    · simp only [Function.comp_apply]
      rw [if_neg hp]
  · simp [h]

theorem dictWF_insert {β : Type} {d : Dict β} (k : String) (v : β)
    (h : DictWF d) : DictWF (dictInsert d k v) := by
  unfold DictWF
  rw [keys_dictInsert]
  by_cases hm : dictMem k d
  · rw [if_pos hm]; exact h
  · have hk : k ∉ d.map Prod.fst := dictMem_eq_false_iff.mp (eq_false_of_ne_true hm)
    rw [if_neg hm]
    simp only [List.nodup_append, List.nodup_cons]
    refine ⟨h, by simp, ?_⟩
    intro x hx hx1
    simp only [List.mem_singleton] at hx1
    exact hk (hx1 ▸ hx)

theorem mem_dictInsert {β : Type} {d : Dict β} {k : String} {v : β}
    {x : String × β} (h : x ∈ dictInsert d k v) : x ∈ d ∨ x = (k, v) := by
  unfold dictInsert at h
  by_cases hm : dictMem k d
  · rw [if_pos hm] at h
    rcases List.mem_map.mp h with ⟨p, hp, he⟩
    by_cases hk : (p.1 == k) = true
    · right; rw [← he]; simp [hk]
    · left; rw [← he]; simpa [hk] using hp
  · rw [if_neg hm] at h
    rcases List.mem_append.mp h with h1 | h1
    · exact Or.inl h1
    · exact Or.inr (by simpa using h1)

theorem dictOfPairs_append_singleton {β : Type} (qs : List (String × β)) (p : String × β) :
    dictOfPairs (qs ++ [p]) = dictInsert (dictOfPairs qs) p.1 p.2 := by
  simp [dictOfPairs, List.foldl_append]

theorem mem_dictOfPairs {β : Type} :
    ∀ {ps : List (String × β)} {x : String × β}, x ∈ dictOfPairs ps → x ∈ ps := by
  intro ps
  induction ps using List.reverseRecOn with
  | nil => intro x h; simp [dictOfPairs] at h
  | append_singleton qs p ih =>
    intro x h
    rw [dictOfPairs_append_singleton] at h
    rcases mem_dictInsert h with h1 | h1
    · exact List.mem_append.mpr (Or.inl (ih h1))
    · exact List.mem_append.mpr (Or.inr (by simp [h1]))

/-- Inserting a present key rewrites exactly the pairs that carry it. -/
theorem find?_map_insert_self {β : Type} (k : String) (v : β) :
    ∀ (d : Dict β), dictMem k d = true →
      List.find? (fun p => p.1 == k) (d.map (fun p => if p.1 == k then (k, v) else p)) =
        some (k, v)
  | [], h => by simp [dictMem] at h
  | q :: rest, h => by
    by_cases hq : (q.1 == k) = true
    · simp [List.find?, hq]
    · have hm' : dictMem k rest = true := by
        simpa [dictMem, List.any_cons, hq] using h
      simpa [List.find?, hq] using find?_map_insert_self k v rest hm'

theorem dictLookup_insert_self {β : Type} (d : Dict β) (k : String) (v : β) :
    dictLookup k (dictInsert d k v) = some v := by
  unfold dictInsert
  by_cases hm : dictMem k d
  · rw [if_pos hm]
    unfold dictLookup
    rw [find?_map_insert_self k v d hm]
    rfl
  · rw [if_neg hm]
    unfold dictLookup
    rw [List.find?_append]
    have hnone : List.find? (fun p => p.1 == k) d = none := by
      rw [List.find?_eq_none]
      intro p hp hpk
      exact hm (List.any_eq_true.mpr ⟨p, hp, hpk⟩)
    simp [hnone, List.find?]

/-- Rewriting the pairs at key `k'` does not affect a search for `k ≠ k'`. -/
theorem find?_map_insert_ne {β : Type} {k k' : String} (v : β) (h : k ≠ k') :
    ∀ (d : Dict β),
      List.find? (fun p => p.1 == k) (d.map (fun p => if p.1 == k' then (k', v) else p)) =
        List.find? (fun p => p.1 == k) d
  | [] => by simp
  | q :: rest => by
    by_cases hq : (q.1 == k') = true
    · have hqk : (q.1 == k) = false := by
        have : q.1 = k' := eq_of_beq hq
        simp [this]
        exact fun he => h he.symm
      have hkk : (k' == k) = false := by
        simp; exact fun he => h he.symm
      simpa [List.find?, hq, hqk, hkk] using find?_map_insert_ne v h rest
    · by_cases hqk : (q.1 == k) = true
      · simp [List.find?, hq, hqk]
      · simpa [List.find?, hq, hqk] using find?_map_insert_ne v h rest

theorem dictLookup_insert_ne {β : Type} (d : Dict β) {k k' : String} (v : β)
    (h : k ≠ k') : dictLookup k (dictInsert d k' v) = dictLookup k d := by
  unfold dictInsert
  by_cases hm : dictMem k' d
  · rw [if_pos hm]
    unfold dictLookup
    rw [find?_map_insert_ne v h d]
  · rw [if_neg hm]
    unfold dictLookup
    rw [List.find?_append]
    have : List.find? (fun p => p.1 == k) [(k', v)] = none := by
      simp
      exact fun he => h he.symm
    rw [this]
    cases List.find? (fun p => p.1 == k) d with
    | none => rfl
    | some p => rfl

/-- Last-write-wins: looking a key up in `dict(pairs)` yields the value of the
last pair carrying that key. -/
theorem dictLookup_dictOfPairs {β : Type} (ps : List (String × β)) (k : String) :
    dictLookup k (dictOfPairs ps) =
      ((ps.filter (fun p => p.1 == k)).getLast?).map Prod.snd := by
  induction ps using List.reverseRecOn with
  | nil => simp [dictOfPairs, dictLookup]
  | append_singleton qs p ih =>
    rw [dictOfPairs_append_singleton]
    by_cases hk : p.1 = k
    · subst hk
      rw [dictLookup_insert_self]
      simp [List.filter_append]
    · rw [dictLookup_insert_ne _ _ (fun he => hk he.symm)]
      rw [ih]
      have : (p.1 == k) = false := by simpa using hk
      simp [List.filter_append, this]

theorem keys_dictOfPairs_sublist {β : Type} (ps : List (String × β)) :
    List.Sublist ((dictOfPairs ps).map Prod.fst) (ps.map Prod.fst) := by
  induction ps using List.reverseRecOn with
  | nil => simp [dictOfPairs]
  | append_singleton qs p ih =>
    rw [dictOfPairs_append_singleton, keys_dictInsert]
    by_cases hm : dictMem p.1 (dictOfPairs qs)
    · rw [if_pos hm]
      refine List.Sublist.trans ih ?_
      rw [List.map_append]
      exact List.sublist_append_left _ _
    · rw [if_neg hm]
      rw [List.map_append]
      exact List.Sublist.append ih (List.Sublist.refl _)

theorem dictLookup_append_left {β : Type} {a : Dict β} (b : Dict β) {k : String}
    (h : dictMem k a = true) : dictLookup k (a ++ b) = dictLookup k a := by
  unfold dictLookup
  rw [List.find?_append]
  have hsome : (List.find? (fun p => p.1 == k) a).isSome := by
    rw [List.find?_isSome]
    rcases List.any_eq_true.mp h with ⟨p, hp, hpk⟩
    exact ⟨p, hp, hpk⟩
  cases hf : List.find? (fun p => p.1 == k) a with
  | none => rw [hf] at hsome; simp at hsome
  | some q => rfl

theorem dictMem_dictInsert_iff {β : Type} {d : Dict β} {k x : String} {v : β} :
    dictMem x (dictInsert d k v) = true ↔ (dictMem x d = true ∨ x = k) := by
  rw [dictMem_iff, keys_dictInsert]
  by_cases hm : dictMem k d
  · rw [if_pos hm, ← dictMem_iff]
    constructor
    · exact Or.inl
    · rintro (h1 | h1)
      · exact h1
      · subst h1; exact hm
  · rw [if_neg hm, List.mem_append, ← dictMem_iff]
    simp

/-- The element `find?` returns satisfies the predicate. -/
theorem find?_pred {α : Type} {p : α → Bool} :
    ∀ {l : List α} {a : α}, l.find? p = some a → p a = true
  | [], a => by simp
  | x :: xs, a => by
    cases hx : p x with
    | true =>
      intro h
      simp [List.find?, hx] at h
      subst h
      exact hx
    | false =>
      intro h
      simp only [List.find?, hx] at h
      exact find?_pred h

theorem mem_of_dictLookup_eq_some {β : Type} {d : Dict β} {k : String} {b : β}
    (h : dictLookup k d = some b) : (k, b) ∈ d := by
  unfold dictLookup at h
  cases hf : List.find? (fun p => p.1 == k) d with
  | none => rw [hf] at h; simp at h
  | some q =>
    rw [hf] at h
    have hq : q ∈ d := List.mem_of_find?_eq_some hf
    have hqk : (q.1 == k) = true := by
      have := find?_pred hf
      simpa using this
    have hb : q.2 = b := by simpa using h
    have : q = (k, b) := by
      rcases q with ⟨q1, q2⟩
      simp at hqk hb
      simp [hqk, hb]
    exact this ▸ hq

theorem dictLookup_eq_of_mem {β : Type} :
    ∀ {d : Dict β} {k : String} {b : β}, DictWF d → (k, b) ∈ d →
      dictLookup k d = some b := by
  intro d
  induction d with
  | nil => intro k b _ hm; simp at hm
  | cons q rest ih =>
    intro k b hWF hm
    have hWFl : (List.map Prod.fst (q :: rest)).Nodup := hWF
    rw [List.map_cons, List.nodup_cons] at hWFl
    rcases List.mem_cons.mp hm with h1 | h1
    · rw [← h1]
      unfold dictLookup
      simp [List.find?]
    · have hkin : k ∈ rest.map Prod.fst := List.mem_map.mpr ⟨(k, b), h1, rfl⟩
      have hne : (q.1 == k) = false := by
        cases hb : (q.1 == k) with
        | false => rfl
        | true => exact absurd ((eq_of_beq hb).symm ▸ hkin) hWFl.1
      have := ih hWFl.2 h1
      unfold dictLookup at this ⊢
      simpa [List.find?, hne] using this

/-! ## The claims -/

/-- Claim C1: When the freshly extracted mapping holds at least one version
label absent from the existing store, the updater returns exactly the
existing entries — original order and values — followed by the new entries
(labels absent from `existing`) in their extraction order, and signals a
write.  Existing entries are never changed or removed, even when `fresh`
carries a different identifier for a label already present: such pairs are
filtered out before the merge. -/
theorem claim_C1 (existing fresh : Dict Entry)
    (hWFe : DictWF existing) (hWFf : DictWF fresh)
    (hnew : ∃ p ∈ fresh, dictMem p.1 existing = false) :
    update_guids_database fresh existing =
      (existing ++ fresh.filter (fun p => !(dictMem p.1 existing)), true) := by
  have hmemnew : ∀ p ∈ fresh.filter (fun p => !(dictMem p.1 existing)),
      dictMem p.1 existing = false := by
    intro p hp
    have := (List.mem_filter.mp hp).2
    simpa using this
  have hnodup : ((fresh.filter (fun p => !(dictMem p.1 existing))).map Prod.fst).Nodup := by
    exact List.Nodup.sublist (List.Sublist.map Prod.fst (List.filter_sublist _)) hWFf
  have hne : (fresh.filter (fun p => !(dictMem p.1 existing))).isEmpty = false := by
    rcases hnew with ⟨p, hp, hmem⟩
    have hpin : p ∈ fresh.filter (fun p => !(dictMem p.1 existing)) := by
      rw [List.mem_filter]
      exact ⟨hp, by simp [hmem]⟩
    cases hfil : fresh.filter (fun p => !(dictMem p.1 existing)) with
    | nil => rw [hfil] at hpin; simp at hpin
    | cons q rest => simp
  unfold update_guids_database
  simp only [hne, Bool.false_eq_true, if_false]
  rw [dictMerge_eq_append hWFe hnodup hmemnew]

/-- Witness for C1 at a concrete input: the fresh mapping renames the
identifier of `4.0.0` (ignored) and adds `4.1.0` (appended). -/
theorem claim_C1_witness :
    update_guids_database
        [("4.0.0", ⟨2, "x"⟩), ("4.1.0", ⟨3, "2021-09-01"⟩)]
        [("4.0.0", ⟨1, "2021-08-31"⟩)] =
      ([("4.0.0", ⟨1, "2021-08-31"⟩)] ++
        List.filter (fun p => !(dictMem p.1 [("4.0.0", (⟨1, "2021-08-31"⟩ : Entry))]))
          [("4.0.0", ⟨2, "x"⟩), ("4.1.0", ⟨3, "2021-09-01"⟩)], true) :=
  claim_C1 [("4.0.0", ⟨1, "2021-08-31"⟩)]
    [("4.0.0", ⟨2, "x"⟩), ("4.1.0", ⟨3, "2021-09-01"⟩)]
    (by decide) (by decide) (by decide)

/-- Claim C4: When every version label of the fresh mapping is already a key
of the existing store, the updater returns the existing store itself and
signals that no write is needed. -/
theorem claim_C4 (existing fresh : Dict Entry)
    (h : ∀ p ∈ fresh, dictMem p.1 existing = true) :
    update_guids_database fresh existing = (existing, false) := by
  have hfil : fresh.filter (fun p => !(dictMem p.1 existing)) = [] := by
    rw [List.filter_eq_nil_iff]
    intro p hp
    simp [h p hp]
  unfold update_guids_database
  simp only [hfil, List.isEmpty_nil, if_true]

/-- Witness for C4 at a concrete input: a re-scrape that yields a different
identifier for an already-stored label changes nothing and writes
nothing. -/
theorem claim_C4_witness :
    update_guids_database [("4.0.0", ⟨2, "x"⟩)] [("4.0.0", ⟨1, "2021-08-31"⟩)] =
      ([("4.0.0", ⟨1, "2021-08-31"⟩)], false) :=
  claim_C4 [("4.0.0", ⟨1, "2021-08-31"⟩)] [("4.0.0", ⟨2, "x"⟩)] (by decide)

/-- The function `extract_version_guid` is exactly: find the first anchor whose target
matches, and return its parsed capture — anchors after it are never
consulted. -/
theorem extract_version_guid_eq_find :
    ∀ anchors : List String,
      extract_version_guid anchors =
        (anchors.find? (fun a => (searchGuid a.toList).isSome)).bind
          (fun a => searchGuid a.toList)
  | [] => rfl
  | a :: rest => by
    cases hs : searchGuid a.toList with
    | some g =>
      simp only [String.toList] at hs
      simp [extract_version_guid, String.toList, hs, List.find?]
    | none =>
      simp only [String.toList] at hs
      have := extract_version_guid_eq_find rest
      simpa [extract_version_guid, String.toList, hs, List.find?] using this

/-- Claim C2: The extractor returns `dict(reversed(pairs))` for the pairs
emitted in page order: with distinct labels the mapping is exactly the
reversed (chronological, oldest-first) sequence; in general its key order
is a subsequence of the reversed heading order, and on a duplicated label
the occurrence later in the chronological sequence supplies the stored
value (last-write-wins). -/
theorem claim_C2 (doc : List Elem) (pairs : List (String × Entry))
    (h : scanH2 doc = some pairs) :
    get_available_guids doc = some (dictOfPairs pairs.reverse)
    ∧ ((pairs.reverse.map Prod.fst).Nodup → dictOfPairs pairs.reverse = pairs.reverse)
    ∧ List.Sublist ((dictOfPairs pairs.reverse).map Prod.fst)
        (pairs.reverse.map Prod.fst)
    ∧ ∀ v, dictLookup v (dictOfPairs pairs.reverse) =
        ((pairs.reverse.filter (fun p => p.1 == v)).getLast?).map Prod.snd := by
  refine ⟨?_, ?_, ?_, ?_⟩
  · simp [get_available_guids, h]
  · intro hn; exact dictOfPairs_of_nodup hn
  · exact keys_dictOfPairs_sublist _
  · intro v; exact dictLookup_dictOfPairs _ v

/-- Witness for C2 at a concrete two-release page (newest first on the
page, oldest first in the result). -/
theorem claim_C2_witness :
    get_available_guids
        [⟨"h2", " 4.1.0 ", []⟩, ⟨"p", "2021-09-01", []⟩,
         ⟨"blockquote", "", ["https://desktop.docker.com/mac/main/amd64/111/Docker.dmg"]⟩,
         ⟨"h2", "4.0.0", []⟩, ⟨"p", "2021-08-31", []⟩,
         ⟨"blockquote", "", ["https://desktop.docker.com/mac/main/amd64/110/Docker.dmg"]⟩] =
      some (dictOfPairs
        [("4.1.0", ⟨111, "2021-09-01"⟩), ("4.0.0", ⟨110, "2021-08-31"⟩)].reverse)
    ∧ (([("4.1.0", (⟨111, "2021-09-01"⟩ : Entry)),
         ("4.0.0", ⟨110, "2021-08-31"⟩)].reverse.map Prod.fst).Nodup →
        dictOfPairs [("4.1.0", (⟨111, "2021-09-01"⟩ : Entry)),
          ("4.0.0", ⟨110, "2021-08-31"⟩)].reverse =
          [("4.1.0", ⟨111, "2021-09-01"⟩), ("4.0.0", ⟨110, "2021-08-31"⟩)].reverse)
    ∧ List.Sublist
        ((dictOfPairs [("4.1.0", (⟨111, "2021-09-01"⟩ : Entry)),
          ("4.0.0", ⟨110, "2021-08-31"⟩)].reverse).map Prod.fst)
        ([("4.1.0", (⟨111, "2021-09-01"⟩ : Entry)),
          ("4.0.0", ⟨110, "2021-08-31"⟩)].reverse.map Prod.fst)
    ∧ ∀ v, dictLookup v (dictOfPairs
        [("4.1.0", (⟨111, "2021-09-01"⟩ : Entry)),
         ("4.0.0", ⟨110, "2021-08-31"⟩)].reverse) =
        (([("4.1.0", (⟨111, "2021-09-01"⟩ : Entry)),
           ("4.0.0", ⟨110, "2021-08-31"⟩)].reverse.filter
            (fun p => p.1 == v)).getLast?).map Prod.snd :=
  claim_C2
    [⟨"h2", " 4.1.0 ", []⟩, ⟨"p", "2021-09-01", []⟩,
     ⟨"blockquote", "", ["https://desktop.docker.com/mac/main/amd64/111/Docker.dmg"]⟩,
     ⟨"h2", "4.0.0", []⟩, ⟨"p", "2021-08-31", []⟩,
     ⟨"blockquote", "", ["https://desktop.docker.com/mac/main/amd64/110/Docker.dmg"]⟩]
    [("4.1.0", ⟨111, "2021-09-01"⟩), ("4.0.0", ⟨110, "2021-08-31"⟩)]
    (by decide)

/-- Claim C3 (corrected): A release section emits an entry iff its second
sibling is a blockquote, some anchor in it matches the GUID pattern, *and*
the first matching anchor's digit run parses to a nonzero integer (the
sources test the parsed value with `if guid:`, so a `0` capture emits
nothing — see the counterexample).  When an entry is emitted its identifier
is the first matching anchor's parsed capture, and anchors after the first
match are not consulted. -/
theorem claim_C3 (title sib1 sib2 : Elem) :
    ((processSection title sib1 sib2).isSome ↔
      (sib2.name = "blockquote"
        ∧ ∃ g, extract_version_guid sib2.anchors = some g ∧ g ≠ 0))
    ∧ (∀ v e, processSection title sib1 sib2 = some (v, e) →
        v = pyStrip title.text ∧ e.release_date = pyStrip sib1.text ∧
          extract_version_guid sib2.anchors = some e.guid)
    ∧ extract_version_guid sib2.anchors =
        (sib2.anchors.find? (fun a => (searchGuid a.toList).isSome)).bind
          (fun a => searchGuid a.toList) := by
  refine ⟨?_, ?_, extract_version_guid_eq_find _⟩
  · by_cases hbq : sib2.name = "blockquote"
    · cases hx : extract_version_guid sib2.anchors with
      | some g =>
        by_cases hg : g = 0
        · subst hg; simp [processSection, hbq, hx]
        · simp [processSection, hbq, hx, hg]
      | none => simp [processSection, hbq, hx]
    · simp [processSection, hbq]
  · intro v e hps
    by_cases hbq : sib2.name = "blockquote"
    · cases hx : extract_version_guid sib2.anchors with
      | some g =>
        by_cases hg : g = 0
        · subst hg; simp [processSection, hbq, hx] at hps
        · simp [processSection, hbq, hx, hg] at hps
          obtain ⟨h1, h2⟩ := hps
          subst h2
          subst h1
          exact ⟨rfl, rfl, rfl⟩
      | none => simp [processSection, hbq, hx] at hps
    · simp [processSection, hbq] at hps

/-- Counterexample to C3 as stated: a blockquote whose (first and only)
anchor matches the GUID pattern with capture `0` — the section emits no
entry although "the second sibling is a blockquote and some anchor
matches" holds. -/
theorem claim_C3_counterexample :
    processSection ⟨"h2", "4.0.0", []⟩ ⟨"p", "2021-08-31", []⟩
        ⟨"blockquote", "", ["https://desktop.docker.com/mac/main/amd64/0/Docker.dmg"]⟩ = none
    ∧ Elem.name ⟨"blockquote", "",
        ["https://desktop.docker.com/mac/main/amd64/0/Docker.dmg"]⟩ = "blockquote"
    ∧ ∃ a ∈ Elem.anchors ⟨"blockquote", "",
        ["https://desktop.docker.com/mac/main/amd64/0/Docker.dmg"]⟩,
        (searchGuid a.toList).isSome := by
  decide

/-- A pair `processSection` emits carries a nonzero identifier: the
`if guid:` test drops `None` and `0` alike. -/
theorem processSection_guid_ne_zero {t s1 s2 : Elem} {v : String} {e : Entry}
    (h : processSection t s1 s2 = some (v, e)) : e.guid ≠ 0 := by
  by_cases hbq : s2.name = "blockquote"
  · cases hx : extract_version_guid s2.anchors with
    | some g =>
      by_cases hg : g = 0
      · subst hg; simp [processSection, hbq, hx] at h
      · simp [processSection, hbq, hx, hg] at h
        rw [← h.2]
        exact hg
    | none => simp [processSection, hbq, hx] at h
  · simp [processSection, hbq] at h

/-- Every pair a successful scan emits carries a nonzero identifier. -/
theorem scanH2_guid_ne_zero :
    ∀ (doc : List Elem) (pairs : List (String × Entry)),
      scanH2 doc = some pairs → ∀ p ∈ pairs, p.2.guid ≠ 0 := by
  intro doc
  induction doc with
  | nil =>
    intro pairs h p hp
    simp [scanH2] at h
    subst h
    simp at hp
  | cons e rest ih =>
    intro pairs h p hp
    by_cases he : (e.name == "h2") = true
    · cases rest with
      | nil => rw [scanH2.eq_def] at h; simp [he] at h
      | cons s1 rest2 =>
        cases rest2 with
        | nil => rw [scanH2.eq_def] at h; simp [he] at h
        | cons s2 rest3 =>
          rw [scanH2.eq_def] at h
          simp only [he, if_true] at h
          rcases Option.map_eq_some'.mp h with ⟨tail, htail, hpairs⟩
          cases hps : processSection e s1 s2 with
          | some pair =>
            rw [hps] at hpairs
            rcases List.mem_cons.mp (hpairs ▸ hp) with h1 | h1
            · subst h1
              exact processSection_guid_ne_zero hps
            · exact ih tail htail p h1
          | none =>
            rw [hps] at hpairs
            have htp : tail = pairs := by simpa using hpairs
            exact ih tail htail p (htp ▸ hp)
    · rw [scanH2.eq_def] at h
      simp only [he, Bool.false_eq_true, if_false] at h
      exact ih pairs h p hp

/-- Claim C9: Every entry of the extracted mapping has a strictly positive
identifier; in particular a section whose first matching anchor captures
the digit run `0` contributes no entry at all. -/
theorem claim_C9 (doc : List Elem) (m : Dict Entry)
    (h : get_available_guids doc = some m) :
    (∀ p ∈ m, 0 < p.2.guid)
    ∧ get_available_guids
        [⟨"h2", "4.0.0", []⟩, ⟨"p", "2021-08-31", []⟩,
         ⟨"blockquote", "", ["https://desktop.docker.com/mac/main/amd64/0/Docker.dmg"]⟩] =
      some [] := by
  constructor
  · intro p hp
    rcases Option.map_eq_some'.mp h with ⟨pairs, hpairs, hm⟩
    have hmem : p ∈ pairs := by
      have h1 : p ∈ pairs.reverse := mem_dictOfPairs (hm ▸ hp)
      exact List.mem_reverse.mp h1
    exact Nat.pos_of_ne_zero (scanH2_guid_ne_zero doc pairs hpairs p hmem)
  · decide

/-- What the `new_resources` loop guarantees: the keys stay distinct, and
every accumulated pair either was in the accumulator already or is a
version absent from `existing_resources` drawn from the remaining GUID
list. -/
theorem genGo_spec (t : Dict String) (existing : Dict (Dict String)) :
    ∀ (l : List (String × Entry)) (acc new : Dict (Dict String)),
      genGo t existing l acc = .ok new → DictWF acc →
      DictWF new ∧
        ∀ p ∈ new, p ∈ acc ∨
          (dictMem p.1 existing = false ∧ p.1 ∈ l.map Prod.fst) := by
  intro l
  induction l with
  | nil =>
    intro acc new h hWF
    simp [genGo] at h
    subst h
    exact ⟨hWF, fun p hp => Or.inl hp⟩
  | cons q rest ih =>
    intro acc new h hWF
    obtain ⟨version, data⟩ := q
    cases hvm : dictMem version existing with
    | true =>
      rw [genGo, if_pos hvm] at h
      rcases ih acc new h hWF with ⟨h1, h2⟩
      refine ⟨h1, fun p hp => ?_⟩
      rcases h2 p hp with h3 | h3
      · exact Or.inl h3
      · exact Or.inr ⟨h3.1, by simp [h3.2]⟩
    | false =>
      rw [genGo, if_neg (by simp [hvm])] at h
      cases hbr : buildResource t data with
      | error msg => rw [hbr] at h; simp at h
      | ok rmap =>
        rw [hbr] at h
        rw [except_bind_ok] at h
        rcases ih (dictInsert acc version rmap) new h
            (dictWF_insert version rmap hWF) with ⟨h1, h2⟩
        refine ⟨h1, fun p hp => ?_⟩
        rcases h2 p hp with h3 | h3
        · rcases mem_dictInsert h3 with h4 | h4
          · exact Or.inl h4
          · refine Or.inr ⟨?_, ?_⟩
            · rw [h4]; exact hvm
            · rw [h4]; simp
        · exact Or.inr ⟨h3.1, by simp [h3.2]⟩

/-- Claim C5: The URL generator never alters the resource map of a version
already present in the existing store — whatever the template store holds,
the result is the existing store followed by freshly built maps for
versions absent from it, so present versions keep their exact maps. -/
theorem claim_C5 (guids : Dict Entry) (url_templates : Dict String)
    (existing res : Dict (Dict String)) (changed : Bool)
    (hWFe : DictWF existing)
    (h : generate_urls guids url_templates existing = .ok (res, changed)) :
    (∀ v, dictMem v existing = true → dictLookup v res = dictLookup v existing)
    ∧ ∃ newEntries, res = existing ++ newEntries
        ∧ ∀ p ∈ newEntries,
            dictMem p.1 existing = false ∧ p.1 ∈ guids.map Prod.fst := by
  unfold generate_urls at h
  cases hgo : genGo url_templates existing guids [] with
  | error msg => rw [hgo] at h; simp at h
  | ok new =>
    rw [hgo] at h
    rw [except_bind_ok] at h
    rcases genGo_spec url_templates existing guids [] new hgo
        (by simp [DictWF]) with ⟨hWFn, hprops⟩
    have hprops' : ∀ p ∈ new, dictMem p.1 existing = false ∧ p.1 ∈ guids.map Prod.fst := by
      intro p hp
      rcases hprops p hp with h1 | h1
      · simp at h1
      · exact h1
    cases new with
    | nil =>
      simp only [List.isEmpty_nil, if_true, except_pure_eq, Except.ok.injEq] at h
      have hres : res = existing := (congrArg Prod.fst h).symm
      subst hres
      exact ⟨fun v _ => rfl, [], by simp, by intro p hp; simp at hp⟩
    | cons q qs =>
      simp only [List.isEmpty_cons, Bool.false_eq_true, if_false, except_pure_eq,
        Except.ok.injEq] at h
      have hres : res = dictMerge existing (q :: qs) := (congrArg Prod.fst h).symm
      have happ : dictMerge existing (q :: qs) = existing ++ q :: qs :=
        dictMerge_eq_append hWFe hWFn (fun p hp => (hprops' p hp).1)
      subst hres
      rw [happ]
      refine ⟨?_, q :: qs, rfl, hprops'⟩
      intro v hv
      exact dictLookup_append_left (q :: qs) hv

/-- Witness for C5 at a concrete input: one stored version (kept
byte-for-byte) and one new version built from a one-template store. -/
theorem claim_C5_witness :
    (∀ v, dictMem v [("3.0.0", [("mac", "u"), ("release_date", "rd")])] = true →
      dictLookup v
          ([("3.0.0", [("mac", "u"), ("release_date", "rd")]),
            ("4.0.0",
              [("mac", "https://desktop.docker.com/mac/123456/Docker.dmg"),
               ("release_date", "2021-08-31")])] : Dict (Dict String)) =
        dictLookup v [("3.0.0", [("mac", "u"), ("release_date", "rd")])])
    ∧ ∃ newEntries,
        ([("3.0.0", [("mac", "u"), ("release_date", "rd")]),
          ("4.0.0",
            [("mac", "https://desktop.docker.com/mac/123456/Docker.dmg"),
             ("release_date", "2021-08-31")])] : Dict (Dict String)) =
          [("3.0.0", [("mac", "u"), ("release_date", "rd")])] ++ newEntries
        ∧ ∀ p ∈ newEntries,
            dictMem p.1 [("3.0.0", [("mac", "u"), ("release_date", "rd")])] = false
            ∧ p.1 ∈ ([("4.0.0", (⟨123456, "2021-08-31"⟩ : Entry))] : Dict Entry).map
                Prod.fst :=
  claim_C5 [("4.0.0", ⟨123456, "2021-08-31"⟩)] [("mac", "/mac/{guid}/Docker.dmg")]
    [("3.0.0", [("mac", "u"), ("release_date", "rd")])]
    [("3.0.0", [("mac", "u"), ("release_date", "rd")]),
     ("4.0.0",
       [("mac", "https://desktop.docker.com/mac/123456/Docker.dmg"),
        ("release_date", "2021-08-31")])]
    true (by decide) (by rfl)

/-- Outside of replacement fields and escapes the scanner copies the
template: a template without brace characters formats to itself, whatever
the identifier. -/
theorem formatGo_braceFree (g : Nat) :
    ∀ l : List Char, (∀ c ∈ l, c ≠ '{' ∧ c ≠ '}') → formatGo g none l = .ok l
  | [], _ => rfl
  | c :: rest, h => by
    have hc := h c (List.mem_cons_self _ _)
    have hrest : ∀ d ∈ rest, d ≠ '{' ∧ d ≠ '}' :=
      fun d hd => h d (List.mem_cons_of_mem _ hd)
    have h1 : (c == '{') = false := by simpa using hc.1
    have h2 : (c == '}') = false := by simpa using hc.2
    rw [formatGo.eq_def]
    simp only [h1, h2, Bool.false_eq_true, if_false]
    rw [formatGo_braceFree g rest hrest]
    rfl

/-- Claim C8 (corrected): A template string with no brace characters is used
verbatim — the generated URL is the fixed host origin followed by the
unmodified template — and formatting raises no error, for every identifier.
(As stated over "no occurrence of the identifier placeholder" the claim
fails: a template carrying any *other* replacement field has no `guid`
placeholder yet raises `KeyError` — see the counterexample.) -/
theorem claim_C8 (ty tmpl : String) (e : Entry)
    (hb : ∀ c ∈ tmpl.toList, c ≠ '{' ∧ c ≠ '}') :
    pyFormat tmpl e.guid = .ok tmpl
    ∧ buildResource [(ty, tmpl)] e =
        .ok (dictInsert [(ty, "https://desktop.docker.com" ++ tmpl)]
          "release_date" e.release_date) := by
  have hpf : pyFormat tmpl e.guid = .ok tmpl := by
    unfold pyFormat
    rw [formatGo_braceFree e.guid tmpl.toList hb]
    rfl
  refine ⟨hpf, ?_⟩
  unfold buildResource
  have hmap : List.mapM (fun p => do
        let s ← pyFormat p.2 e.guid
        pure (p.1, "https://desktop.docker.com" ++ s)) [(ty, tmpl)] =
      Except.ok [(ty, "https://desktop.docker.com" ++ tmpl)] := by
    simp [List.mapM, List.mapM.loop, hpf]
  rw [hmap, except_bind_ok, dictOfPairs_of_nodup (by simp), except_pure_eq]

/-- Counterexample to C8 as stated: the template `(colon-free) replacement
field with name id` contains no occurrence of the `guid` placeholder, yet
URL generation raises `KeyError` instead of using the string verbatim. -/
theorem claim_C8_counterexample :
    generate_urls [("4.0.0", ⟨7, "2021-08-31"⟩)] [("mac", "{id}")] [] =
      .error "KeyError" := by
  rfl

/-- Witness for C8 at a concrete brace-free template. -/
theorem claim_C8_witness :
    pyFormat "/mac/Docker.dmg" (Entry.guid ⟨5, "d"⟩) = .ok "/mac/Docker.dmg"
    ∧ buildResource [("mac", "/mac/Docker.dmg")] ⟨5, "d"⟩ =
        .ok (dictInsert [("mac", "https://desktop.docker.com/mac/Docker.dmg")]
          "release_date" (Entry.release_date ⟨5, "d"⟩)) :=
  claim_C8 "mac" "/mac/Docker.dmg" ⟨5, "d"⟩ (by decide)

/-- A successful probing pass over one version's items yields exactly the
items the comprehension keeps: not `release_date`, final status 200. -/
theorem probeItems_eq_filter (probe : String → Option Nat) :
    ∀ (data valid : List (String × String)),
      probeItems probe data = some valid →
      valid = data.filter (probeSuccess probe) := by
  intro data
  induction data with
  | nil =>
    intro valid h
    simp [probeItems] at h
    subst h
    rfl
  | cons p rest ih =>
    intro valid h
    obtain ⟨t, u⟩ := p
    cases ht : (t == "release_date") with
    | true =>
      rw [probeItems, if_pos ht] at h
      have hps : probeSuccess probe (t, u) = false := by
        unfold probeSuccess
        have h1 : (t != "release_date") = false := by simp [bne, ht]
        rw [h1, Bool.false_and]
      rw [ih valid h, List.filter_cons, hps]
      simp
    | false =>
      rw [probeItems, if_neg (by simp [ht])] at h
      cases hp : probe u with
      | none => rw [hp] at h; simp at h
      | some s =>
        rw [hp, option_bind_some'] at h
        cases hpt : probeItems probe rest with
        | none => rw [hpt] at h; simp at h
        | some tail =>
          rw [hpt, option_bind_some'] at h
          have htail := ih tail hpt
          have hps : probeSuccess probe (t, u) = ((s : Nat) == 200) := by
            unfold probeSuccess
            rw [hp]
            have h1 : (t != "release_date") = true := by simp [bne, ht]
            rw [h1, Bool.true_and]
            rfl
          cases hs : ((s : Nat) == 200) with
          | true =>
            rw [hs] at hps
            simp only [hs, if_true] at h
            simp only [option_pure_eq, Option.some_inj] at h
            rw [← h, List.filter_cons, hps, htail]
            simp
          | false =>
            rw [hs] at hps
            simp only [hs, Bool.false_eq_true, if_false] at h
            simp only [option_pure_eq, Option.some_inj] at h
            rw [← h, List.filter_cons, hps, htail]
            simp

/-- No item the comprehension keeps carries the `release_date` key. -/
theorem release_date_not_in_filter (probe : String → Option Nat)
    (data : List (String × String)) :
    dictMem "release_date" (data.filter (probeSuccess probe)) = false := by
  cases hb : dictMem "release_date" (data.filter (probeSuccess probe)) with
  | false => rfl
  | true =>
    exfalso
    rcases List.any_eq_true.mp hb with ⟨p, hp, hpk⟩
    have hpred := (List.mem_filter.mp hp).2
    simp [probeSuccess] at hpred
    exact hpred.1 (eq_of_beq hpk)

/-- What the verification loop guarantees on success, relative to the
accumulator: a version is in the result iff it was accumulated already or
some probed URL of its map succeeded; accumulated versions keep their
value; and an emitted version's map is its successful items followed by the
`release_date` field. -/
theorem verifyGo_spec (probe : String → Option Nat) :
    ∀ (l : List (String × Dict String)) (acc out : Dict (Dict String)),
      verifyGo probe l acc = some out → DictWF acc →
      (∀ p ∈ l, dictMem p.1 acc = false) → (l.map Prod.fst).Nodup →
      (∀ v, dictMem v out = true ↔
        (dictMem v acc = true ∨
          ∃ data, (v, data) ∈ l ∧ data.any (probeSuccess probe) = true))
      ∧ (∀ v, dictMem v acc = true → dictLookup v out = dictLookup v acc)
      ∧ (∀ v data, (v, data) ∈ l → data.any (probeSuccess probe) = true →
          ∃ rd, dictLookup "release_date" data = some rd ∧
            dictLookup v out = some (data.filter (probeSuccess probe)
              ++ [("release_date", rd)])) := by
  intro l
  induction l with
  | nil =>
    intro acc out h _ _ _
    have hout : out = acc := by simpa [verifyGo] using h.symm
    subst hout
    refine ⟨?_, fun v _ => rfl, ?_⟩
    · intro v
      constructor
      · exact fun hm => Or.inl hm
      · rintro (hm | ⟨data, hmem, _⟩)
        · exact hm
        · simp at hmem
    · intro v data hmem
      simp at hmem
  | cons head rest ih =>
    intro acc out h hWF hdisj hnd
    obtain ⟨version, data⟩ := head
    rw [verifyGo] at h
    cases hpi : probeItems probe data with
    | none => rw [hpi] at h; simp at h
    | some valid =>
      rw [hpi, option_bind_some'] at h
      have hval : valid = data.filter (probeSuccess probe) :=
        probeItems_eq_filter probe data valid hpi
      have hndt : (rest.map Prod.fst).Nodup := by
        rw [List.map_cons, List.nodup_cons] at hnd; exact hnd.2
      have hvnotin : version ∉ rest.map Prod.fst := by
        rw [List.map_cons, List.nodup_cons] at hnd; exact hnd.1
      cases valid with
      | nil =>
        simp only [List.isEmpty_nil, if_true] at h
        have hdisjt : ∀ p ∈ rest, dictMem p.1 acc = false :=
          fun p hp => hdisj p (List.mem_cons_of_mem _ hp)
        rcases ih acc out h hWF hdisjt hndt with ⟨i1, i2, i3⟩
        have hanyf : data.any (probeSuccess probe) = false := by
          cases hb : data.any (probeSuccess probe) with
          | false => rfl
          | true =>
            exfalso
            rcases List.any_eq_true.mp hb with ⟨x, hx, hpx⟩
            have hxin : x ∈ data.filter (probeSuccess probe) :=
              List.mem_filter.mpr ⟨hx, hpx⟩
            rw [← hval] at hxin
            simp at hxin
        refine ⟨?_, i2, ?_⟩
        · intro v
          rw [i1 v]
          constructor
          · rintro (hm | ⟨d', hmem, hany⟩)
            · exact Or.inl hm
            · exact Or.inr ⟨d', List.mem_cons_of_mem _ hmem, hany⟩
          · rintro (hm | ⟨d', hmem, hany⟩)
            · exact Or.inl hm
            · rcases List.mem_cons.mp hmem with h1 | h1
              · exfalso
                have hd : d' = data := congrArg Prod.snd h1
                exact absurd (hd ▸ hany) (by simp [hanyf])
              · exact Or.inr ⟨d', h1, hany⟩
        · intro v d' hmem hany
          rcases List.mem_cons.mp hmem with h1 | h1
          · exfalso
            have hd : d' = data := congrArg Prod.snd h1
            exact absurd (hd ▸ hany) (by simp [hanyf])
          · exact i3 v d' h1 hany
      | cons q qs =>
        simp only [List.isEmpty_cons, Bool.false_eq_true, if_false] at h
        cases hrd : dictLookup "release_date" data with
        | none => rw [hrd] at h; simp at h
        | some rd =>
          rw [hrd, option_bind_some'] at h
          have hnord : dictMem "release_date" (q :: qs) = false := by
            rw [hval]; exact release_date_not_in_filter probe data
          have hvmap : dictInsert (q :: qs) "release_date" rd
              = (q :: qs) ++ [("release_date", rd)] :=
            dictInsert_of_absent _ hnord
          have hvacc : dictMem version acc = false :=
            hdisj _ (List.mem_cons_self _ _)
          have hWF' : DictWF (dictInsert acc version
              (dictInsert (q :: qs) "release_date" rd)) :=
            dictWF_insert _ _ hWF
          have hdisjt : ∀ p ∈ rest, dictMem p.1 (dictInsert acc version
              (dictInsert (q :: qs) "release_date" rd)) = false := by
            intro p hp
            cases hb : dictMem p.1 (dictInsert acc version
                (dictInsert (q :: qs) "release_date" rd)) with
            | false => rfl
            | true =>
              exfalso
              rcases dictMem_dictInsert_iff.mp hb with h1 | h1
              · exact absurd h1 (by simp [hdisj p (List.mem_cons_of_mem _ hp)])
              · exact hvnotin (h1 ▸ List.mem_map.mpr ⟨p, hp, rfl⟩)
          rcases ih _ out h hWF' hdisjt hndt with ⟨i1, i2, i3⟩
          have hany : data.any (probeSuccess probe) = true := by
            have hqin : q ∈ data.filter (probeSuccess probe) := by
              rw [← hval]; exact List.mem_cons_self _ _
            rcases List.mem_filter.mp hqin with ⟨hq1, hq2⟩
            exact List.any_eq_true.mpr ⟨q, hq1, hq2⟩
          have hlv : dictLookup version out
              = some ((q :: qs) ++ [("release_date", rd)]) := by
            have hm : dictMem version (dictInsert acc version
                (dictInsert (q :: qs) "release_date" rd)) = true :=
              dictMem_dictInsert_iff.mpr (Or.inr rfl)
            rw [i2 version hm, dictLookup_insert_self, hvmap]
          refine ⟨?_, ?_, ?_⟩
          · intro v
            rw [i1 v]
            constructor
            · rintro (hm | ⟨d', hmem, hany'⟩)
              · rcases dictMem_dictInsert_iff.mp hm with h1 | h1
                · exact Or.inl h1
                · subst h1
                  exact Or.inr ⟨data, List.mem_cons_self _ _, hany⟩
              · exact Or.inr ⟨d', List.mem_cons_of_mem _ hmem, hany'⟩
            · rintro (hm | ⟨d', hmem, hany'⟩)
              · exact Or.inl (dictMem_dictInsert_iff.mpr (Or.inl hm))
              · rcases List.mem_cons.mp hmem with h1 | h1
                · have hv : v = version := congrArg Prod.fst h1
                  exact Or.inl (dictMem_dictInsert_iff.mpr (Or.inr hv))
                · exact Or.inr ⟨d', h1, hany'⟩
          · intro v hm
            have hne : v ≠ version := by
              intro he
              exact absurd (he ▸ hm) (by simp [hvacc])
            have hm' : dictMem v (dictInsert acc version
                (dictInsert (q :: qs) "release_date" rd)) = true :=
              dictMem_dictInsert_iff.mpr (Or.inl hm)
            rw [i2 v hm', dictLookup_insert_ne _ _ hne]
          · intro v d' hmem hany'
            rcases List.mem_cons.mp hmem with h1 | h1
            · have hv : v = version := congrArg Prod.fst h1
              have hd : d' = data := congrArg Prod.snd h1
              subst hv
              subst hd
              refine ⟨rd, hrd, ?_⟩
              rw [hlv, hval]
            · exact i3 v d' h1 hany'

/-- Claim C6: A version is in the verifier's output iff one of its URL values
(the `release_date` field excluded from probing) got a final status of
exactly 200; a version with no successful probe is absent, and an included
version's map is exactly its successful URL entries followed by the
`release_date` field. -/
theorem claim_C6 (probe : String → Option Nat) (resources out : Dict (Dict String))
    (hWF : DictWF resources)
    (h : verify_urls probe resources = some out) :
    (∀ v, dictMem v out = true → dictMem v resources = true)
    ∧ (∀ v data, dictLookup v resources = some data →
        (dictMem v out = true ↔ data.any (probeSuccess probe) = true))
    ∧ (∀ v data, dictLookup v resources = some data → dictMem v out = true →
        ∃ rd, dictLookup "release_date" data = some rd ∧
          dictLookup v out = some (data.filter (probeSuccess probe)
            ++ [("release_date", rd)])) := by
  have hspec := verifyGo_spec probe resources [] out h (by simp [DictWF])
    (by intro p _; rfl) hWF
  rcases hspec with ⟨i1, _, i3⟩
  have hmem_out : ∀ v, dictMem v out = true →
      ∃ data, (v, data) ∈ resources ∧ data.any (probeSuccess probe) = true := by
    intro v hm
    rcases (i1 v).mp hm with h1 | h1
    · simp [dictMem] at h1
    · exact h1
  refine ⟨?_, ?_, ?_⟩
  · intro v hm
    rcases hmem_out v hm with ⟨data, hmem, _⟩
    exact dictMem_iff.mpr (List.mem_map.mpr ⟨(v, data), hmem, rfl⟩)
  · intro v data hlk
    constructor
    · intro hm
      rcases hmem_out v hm with ⟨d', hmem, hany⟩
      have : dictLookup v resources = some d' := dictLookup_eq_of_mem hWF hmem
      rw [hlk] at this
      have hd : d' = data := by simpa using this.symm
      exact hd ▸ hany
    · intro hany
      exact (i1 v).mpr (Or.inr ⟨data, mem_of_dictLookup_eq_some hlk, hany⟩)
  · intro v data hlk hm
    rcases hmem_out v hm with ⟨d', hmem, hany⟩
    have : dictLookup v resources = some d' := dictLookup_eq_of_mem hWF hmem
    rw [hlk] at this
    have hd : d' = data := by simpa using this.symm
    subst hd
    exact i3 v d' hmem hany

/-- Witness for C6 at a concrete input: of two versions, only the one with
a 200 URL survives, stripped to its successful entry plus the date. -/
theorem claim_C6_witness :
    (∀ v, dictMem v ([("4.0.0", [("mac", "https://a"), ("release_date", "2021-08-31")])] :
        Dict (Dict String)) = true →
      dictMem v ([("4.0.0",
          [("mac", "https://a"), ("win", "https://b"), ("release_date", "2021-08-31")]),
        ("4.1.0", [("mac", "https://b"), ("release_date", "2021-09-01")])] :
          Dict (Dict String)) = true)
    ∧ (∀ v data, dictLookup v
          ([("4.0.0",
            [("mac", "https://a"), ("win", "https://b"), ("release_date", "2021-08-31")]),
          ("4.1.0", [("mac", "https://b"), ("release_date", "2021-09-01")])] :
            Dict (Dict String)) = some data →
        (dictMem v ([("4.0.0", [("mac", "https://a"), ("release_date", "2021-08-31")])] :
            Dict (Dict String)) = true ↔
          data.any (probeSuccess
            (fun u => if u == "https://a" then some 200 else some 404)) = true))
    ∧ (∀ v data, dictLookup v
          ([("4.0.0",
            [("mac", "https://a"), ("win", "https://b"), ("release_date", "2021-08-31")]),
          ("4.1.0", [("mac", "https://b"), ("release_date", "2021-09-01")])] :
            Dict (Dict String)) = some data →
        dictMem v ([("4.0.0", [("mac", "https://a"), ("release_date", "2021-08-31")])] :
            Dict (Dict String)) = true →
        ∃ rd, dictLookup "release_date" data = some rd ∧
          dictLookup v ([("4.0.0", [("mac", "https://a"), ("release_date", "2021-08-31")])] :
              Dict (Dict String)) =
            some (data.filter (probeSuccess
                (fun u => if u == "https://a" then some 200 else some 404))
              ++ [("release_date", rd)])) :=
  claim_C6 (fun u => if u == "https://a" then some 200 else some 404)
    [("4.0.0", [("mac", "https://a"), ("win", "https://b"), ("release_date", "2021-08-31")]),
     ("4.1.0", [("mac", "https://b"), ("release_date", "2021-09-01")])]
    [("4.0.0", [("mac", "https://a"), ("release_date", "2021-08-31")])]
    (by decide) (by rfl)

/-- A transport failure on any probed (non-`release_date`) URL makes the
one-version comprehension raise, hence return `none`. -/
theorem probeItems_none (probe : String → Option Nat) :
    ∀ data : List (String × String),
      (∃ p ∈ data, p.1 ≠ "release_date" ∧ probe p.2 = none) →
      probeItems probe data = none := by
  intro data
  induction data with
  | nil => rintro ⟨p, hp, _⟩; simp at hp
  | cons x rest ih =>
    rintro ⟨p, hp, hp1, hp2⟩
    obtain ⟨t, u⟩ := x
    rcases List.mem_cons.mp hp with h1 | h1
    · subst h1
      have ht : (t == "release_date") = false := by simpa using hp1
      rw [probeItems, if_neg (by simp [ht]), hp2]
      rfl
    · cases ht : (t == "release_date") with
      | true =>
        rw [probeItems, if_pos ht]
        exact ih ⟨p, h1, hp1, hp2⟩
      | false =>
        rw [probeItems, if_neg (by simp [ht])]
        cases hpu : probe u with
        | none => rfl
        | some s =>
          rw [option_bind_some', ih ⟨p, h1, hp1, hp2⟩]
          rfl

/-- A transport failure anywhere in the resources aborts the whole loop. -/
theorem verifyGo_none (probe : String → Option Nat) :
    ∀ (l : List (String × Dict String)) (acc : Dict (Dict String)),
      (∃ p ∈ l, ∃ q ∈ p.2, q.1 ≠ "release_date" ∧ probe q.2 = none) →
      verifyGo probe l acc = none := by
  intro l
  induction l with
  | nil => rintro acc ⟨p, hp, _⟩; simp at hp
  | cons x rest ih =>
    rintro acc ⟨p, hp, q, hq, hq1, hq2⟩
    obtain ⟨version, data⟩ := x
    rcases List.mem_cons.mp hp with h1 | h1
    · rw [verifyGo, probeItems_none probe data ⟨q, by rw [h1] at hq; exact hq, hq1, hq2⟩]
      rfl
    · rw [verifyGo]
      cases hpi : probeItems probe data with
      | none => rfl
      | some valid =>
        rw [option_bind_some']
        cases valid with
        | nil =>
          simp only [List.isEmpty_nil, if_true]
          exact ih acc ⟨p, h1, q, hq, hq1, hq2⟩
        | cons w ws =>
          simp only [List.isEmpty_cons, Bool.false_eq_true, if_false]
          cases hrd : dictLookup "release_date" data with
          | none => rfl
          | some rd =>
            rw [option_bind_some']
            exact ih _ ⟨p, h1, q, hq, hq1, hq2⟩

/-- Claim C7 (corrected): in this revision nothing catches a
transport-level exception around `requests.head`: a failing probe on any
URL propagates and aborts the entire verification pass — it is not treated
as a per-URL failure, and later URLs and versions are not reached. -/
theorem claim_C7 (probe : String → Option Nat) (resources : Dict (Dict String))
    (h : ∃ p ∈ resources, ∃ q ∈ p.2, q.1 ≠ "release_date" ∧ probe q.2 = none) :
    verify_urls probe resources = none :=
  verifyGo_none probe resources [] h

/-- Witness for C7: one transport failure, whole pass aborted. -/
theorem claim_C7_witness :
    verify_urls (fun u => if u == "https://a" then none else some 200)
      [("4.0.0", [("mac", "https://a"), ("release_date", "2021-08-31")]),
       ("4.1.0", [("mac", "https://c"), ("release_date", "2021-09-01")])] = none :=
  claim_C7 (fun u => if u == "https://a" then none else some 200)
    [("4.0.0", [("mac", "https://a"), ("release_date", "2021-08-31")]),
     ("4.1.0", [("mac", "https://c"), ("release_date", "2021-09-01")])]
    (by decide)

/-- Counterexample to C7 as stated: the claim says the failing probe on
`4.0.0`'s URL affects only that URL and the pass continues to `4.1.0`
(whose URL probes 200) — but the pass returns `none` (an uncaught raised
exception), producing no output at all. -/
theorem claim_C7_counterexample :
    verify_urls (fun u => if u == "https://a" then none else some 200)
      [("4.0.0", [("mac", "https://a"), ("release_date", "2021-08-31")]),
       ("4.1.0", [("mac", "https://b"), ("release_date", "2021-09-01")])] = none := by
  rfl

/-- Claim C10: With all three flags off and a non-empty GUID store on disk,
the orchestrator is a no-op: the filesystem is unchanged, the effect trace
is empty (no GET, no HEAD, no write), and it returns normally. -/
theorem claim_C10 (page : List Elem) (probe : String → Option Nat) (w : World)
    (g : Dict Entry) (hg : w.guidsFile = some g) (hne : g ≠ []) :
    main page probe false false false w = some (w, []) := by
  cases g with
  | nil => exact absurd rfl hne
  | cons q qs =>
    unfold main mainRest
    simp [load_yaml, hg]

/-- Witness for C10: a world whose GUID store holds one entry. -/
theorem claim_C10_witness :
    main [] (fun _ => none) false false false
        ⟨some [("4.0.0", ⟨1, "2021-08-31"⟩)], none, none, none⟩ =
      some (⟨some [("4.0.0", ⟨1, "2021-08-31"⟩)], none, none, none⟩, []) :=
  claim_C10 [] (fun _ => none)
    ⟨some [("4.0.0", ⟨1, "2021-08-31"⟩)], none, none, none⟩
    [("4.0.0", ⟨1, "2021-08-31"⟩)] rfl (by decide)

/-- Witness for C9 at a concrete two-release page. -/
theorem claim_C9_witness :
    (∀ p ∈ ([("4.0.0", (⟨110, "2021-08-31"⟩ : Entry)),
        ("4.1.0", ⟨111, "2021-09-01"⟩)] : Dict Entry), 0 < p.2.guid)
    ∧ get_available_guids
        [⟨"h2", "4.0.0", []⟩, ⟨"p", "2021-08-31", []⟩,
         ⟨"blockquote", "", ["https://desktop.docker.com/mac/main/amd64/0/Docker.dmg"]⟩] =
      some [] :=
  claim_C9
    [⟨"h2", " 4.1.0 ", []⟩, ⟨"p", "2021-09-01", []⟩,
     ⟨"blockquote", "", ["https://desktop.docker.com/mac/main/amd64/111/Docker.dmg"]⟩,
     ⟨"h2", "4.0.0", []⟩, ⟨"p", "2021-08-31", []⟩,
     ⟨"blockquote", "", ["https://desktop.docker.com/mac/main/amd64/110/Docker.dmg"]⟩]
    [("4.0.0", ⟨110, "2021-08-31"⟩), ("4.1.0", ⟨111, "2021-09-01"⟩)]
    (by decide)

end Docker
